import Mathlib

/-!
Verification of the streaming PDF-analysis service (`app/api/process-pdfs/route.ts`)
and its browser client (`app/page.tsx`).

The server route stages each uploaded file into a fresh temporary directory,
splits the extracted text into chunks, asks an LLM to summarize the first
(at most) five chunks, streams progress fragments and one summary fragment per
file, then asks the LLM for one unified analysis and streams it.  The external
capabilities (filesystem write, PDF loading and chunking, the two LLM chains)
are modelled as functions that may fail with an error message, collected in a
`Capabilities` record.  The client incrementally parses the fragment stream by
searching for the literal markers "Summary for" and "Unified Analysis:".
-/

namespace STM

/-! ## String primitives

JavaScript's `trim`, `includes` and `split(sep)[1]` are modelled over the
underlying character lists so that they can be reasoned about structurally.
-/

/-- Trim whitespace from both ends of a character list
(model of JavaScript `String.prototype.trim`). -/
def trimL (l : List Char) : List Char :=
  ((l.dropWhile Char.isWhitespace).reverse.dropWhile Char.isWhitespace).reverse

/-- Trim whitespace from both ends of a string. -/
def strTrim (s : String) : String := ⟨trimL s.data⟩

/-- Find the first (leftmost) occurrence of `pat` in a character list.
Returns `some (before, after)` where `before` is the text preceding the
occurrence and `after` the text following it, or `none` when `pat` does not
occur.  This is the primitive underlying JavaScript `includes` and `split`. -/
def firstSplit (pat : List Char) : List Char → Option (List Char × List Char)
  | [] => none
  | c :: rest =>
    if pat.isPrefixOf (c :: rest) then some ([], (c :: rest).drop pat.length)
    else
      match firstSplit pat rest with
      | some (pre, post) => some (c :: pre, post)
      | none => none

/-- Model of JavaScript `s.includes(pat)` for a non-empty pattern. -/
def containsB (s pat : String) : Bool := (firstSplit pat.data s.data).isSome

/-- Model of JavaScript `s.startsWith(pat)`. -/
def strStartsWith (s pat : String) : Bool := pat.data.isPrefixOf s.data

/-- Everything after the first occurrence of `pat` in `s`
(empty when `pat` does not occur). -/
def afterFirstStr (s pat : String) : String :=
  match firstSplit pat.data s.data with
  | none => ""
  | some r => ⟨r.2⟩

/-- Model of JavaScript `s.split(pat)[1]`: the text between the first and the
second occurrence of `pat`, or everything after the first occurrence when `pat`
occurs exactly once.  Call sites in the client are guarded by `includes`, so
the `none` branch (JavaScript `undefined`) is never observed. -/
def jsSplitIdx1 (s pat : String) : String :=
  match firstSplit pat.data s.data with
  | none => ""
  | some r =>
    match firstSplit pat.data r.2 with
    | none => ⟨r.2⟩
    | some r2 => ⟨r2.1⟩

/-- Holds when `pat` occurs at most once in `s` (no further occurrence after the first). -/
def atMostOnceB (s pat : String) : Bool :=
  match firstSplit pat.data s.data with
  | none => true
  | some r => (firstSplit pat.data r.2).isNone

/-- Join a list of strings with a single space between consecutive elements. -/
def joinWithSpace : List String → String
  | [] => ""
  | [t] => t
  | t :: rest => t ++ " " ++ joinWithSpace rest

/-- Concatenation of a list of strings. -/
def strConcat : List String → String
  | [] => ""
  | c :: r => c ++ strConcat r

/-- The accumulator built by the summarization loop: each element followed by
one space (`fullSummary += chunkSummary.text + ' '`). -/
def accJoin : List String → String
  | [] => ""
  | t :: r => t ++ " " ++ accJoin r

/-- Returns `true` exactly on successful capability results. -/
def exOk {α : Type} : Except String α → Bool
  | .ok _ => true
  | .error _ => false

/-- Concatenation of a list of lists. -/
def flat {α : Type} : List (List α) → List α
  | [] => []
  | l :: r => l ++ flat r

/-! ## Server model (`app/api/process-pdfs/route.ts`) -/

/-- An uploaded file: original name and binary content (kept abstract as a
string of bytes). -/
structure UploadedFile where
  name : String
  content : String
deriving DecidableEq

/-- The external capabilities used by the route, each of which may fail:
`stageWrite` is `fs.writeFile` of the staged bytes (the preceding `fs.mkdtemp`
is modelled as always succeeding and yielding a fresh directory),
`loadChunks` is `PDFLoader.load` composed with
`RecursiveCharacterTextSplitter.splitDocuments` (returning the ordered chunk
texts), `summarize` is `summarizationChain.call` on one chunk's text and
`synthesize` is `unifiedAnalysisChain.call` on the joined summaries. -/
structure Capabilities where
  stageWrite : UploadedFile → Except String Unit
  loadChunks : UploadedFile → Except String (List String)
  summarize : String → Except String String
  synthesize : String → Except String String

/-- The `Processing <fileName>...\n` fragment (route line 48). -/
def procFrag (name : String) : String := "Processing " ++ name ++ "...\n"

/-- The `🧠 Analyzing section <i> of <n> for <fileName>\n` fragment (route line 66). -/
def analyzingFrag (i total : Nat) (name : String) : String :=
  "🧠 Analyzing section " ++ toString i ++ " of " ++ toString total ++
    " for " ++ name ++ "\n"

/-- The `Summary for <fileName>:\n<summary>\n\n` fragment (route line 70). -/
def summaryFrag (name summary : String) : String :=
  "Summary for " ++ name ++ ":\n" ++ summary ++ "\n\n"

/-- The `🧪 Synthesizing findings...\n` fragment (route line 105). -/
def synthFrag : String := "🧪 Synthesizing findings...\n"

/-- The `Unified Analysis:\n<text>\n` fragment (route line 110). -/
def unifiedFrag (t : String) : String := "Unified Analysis:\n" ++ t ++ "\n"

/-- The `Error: <message>\n` fragment (route line 112). -/
def errorFrag (msg : String) : String := "Error: " ++ msg ++ "\n"

/-- The summarization loop of `processFile` (route lines 62-67): iterates over
the given chunks (the caller passes the first at-most-five), calling the
summarization capability on each; on success the returned text plus a space is
appended to the accumulator and one analyzing fragment is yielded; the first
failure aborts the loop.  Returns the yielded fragments and either the final
accumulator or the error. -/
def summarizeChunks (cap : Capabilities) (name : String) (total : Nat) :
    List String → Nat → String → List String × Except String String
  | [], _, acc => ([], .ok acc)
  | c :: rest, i, acc =>
    match cap.summarize c with
    | .error e => ([], .error e)
    | .ok t =>
      let r := summarizeChunks cap name total rest (i + 1) (acc ++ t ++ " ")
      (analyzingFrag (i + 1) total name :: r.1, r.2)

deriving instance DecidableEq for Except

/-- Result of running `processFile` on one file: the fragments it yielded, the
full summary (or the error that aborted it), and whether the temporary staging
directory was removed by the time the step finished. -/
structure FileRun where
  fragments : List String
  result : Except String String
  dirRemoved : Bool
deriving DecidableEq

/-- Model of the async generator `processFile` (route lines 40-76).
`fs.mkdtemp` creates the staging directory, then `fs.writeFile` stages the
bytes; both happen before the `try`/`finally` whose `finally` removes the
directory, so a staging-write failure aborts the step with the directory still
present and nothing yielded.  After the `Processing` fragment is yielded, the
`try` body loads and splits the document, summarizes the first at-most-five
chunks, and yields the trimmed summary fragment; on every path through the
`try` body the `finally` removes the directory. -/
def processFile (cap : Capabilities) (f : UploadedFile) : FileRun :=
  match cap.stageWrite f with
  | .error e => ⟨[], .error e, false⟩
  | .ok _ =>
    match cap.loadChunks f with
    | .error e => ⟨[procFrag f.name], .error e, true⟩
    | .ok chunks =>
      let total := min chunks.length 5
      let r := summarizeChunks cap f.name total (chunks.take 5) 0 ""
      match r.2 with
      | .error e => ⟨procFrag f.name :: r.1, .error e, true⟩
      | .ok acc =>
        let s := strTrim acc
        ⟨procFrag f.name :: (r.1 ++ [summaryFrag f.name s]), .ok s, true⟩

/-- Output of the per-file loop of the streaming worker (route lines 95-103):
all fragments written so far, the fragments pushed onto `summaries` (those
starting with `Summary for`), the staging directories that were created but
never removed (identified by their file's name), and the error that aborted
the loop, if any. -/
structure LoopOut where
  fragments : List String
  pushed : List String
  leaked : List String
  fault : Option String
deriving DecidableEq

/-- The per-file loop of the streaming worker: each file is fully processed
before the next begins; every yielded fragment is written to the stream, and
fragments starting with `Summary for` are pushed; the first failing file
aborts the loop, leaving the remaining files unprocessed. -/
def runFiles (cap : Capabilities) : List UploadedFile → LoopOut
  | [] => ⟨[], [], [], none⟩
  | f :: rest =>
    let r := processFile cap f
    let leak := if r.dirRemoved then [] else [f.name]
    let push := r.fragments.filter (fun c => strStartsWith c "Summary for")
    match r.result with
    | .error e => ⟨r.fragments, push, leak, some e⟩
    | .ok _ =>
      let rr := runFiles cap rest
      ⟨r.fragments ++ rr.fragments, push ++ rr.pushed, leak ++ rr.leaked, rr.fault⟩

/-- Observable outcome of one `POST` request: HTTP status, plain body (for the
400 rejection), whether a streaming body was opened, the fragments written to
it, how many times the stream was closed, and the leaked staging directories. -/
structure RequestRun where
  status : Nat
  body : Option String
  streamOpened : Bool
  fragments : List String
  closes : Nat
  leaked : List String
deriving DecidableEq

/-- Model of the route's `POST` handler (route lines 78-121).  An empty
`files` field is rejected with 400 `No files uploaded` before any stream is
created.  Otherwise the worker processes the files sequentially; on success it
writes the synthesizing fragment, calls the synthesis capability on the pushed
summary fragments joined with newlines, and writes the unified-analysis
fragment; any fault is caught at the single outer boundary, which writes one
error fragment; the `finally` closes the stream exactly once on every path. -/
def POST (cap : Capabilities) (files : List UploadedFile) : RequestRun :=
  if files.length = 0 then ⟨400, some "No files uploaded", false, [], 0, []⟩
  else
    match (runFiles cap files).fault with
    | some e =>
      ⟨200, none, true, (runFiles cap files).fragments ++ [errorFrag e], 1,
        (runFiles cap files).leaked⟩
    | none =>
      match cap.synthesize (String.intercalate "\n" (runFiles cap files).pushed) with
      | .ok t =>
        ⟨200, none, true, (runFiles cap files).fragments ++ [synthFrag, unifiedFrag t], 1,
          (runFiles cap files).leaked⟩
      | .error e =>
        ⟨200, none, true, (runFiles cap files).fragments ++ [synthFrag, errorFrag e], 1,
          (runFiles cap files).leaked⟩

/-- Model of the module-level credential check (route lines 13-17):
`process.env.OPENAI_API_KEY` is read once at module load and the module throws
when it is missing or empty (JavaScript falsiness), so the route never becomes
servable. -/
def startServer (env : Option String) : Except String String :=
  match env with
  | none => .error "OpenAI API key not found in environment variables"
  | some k =>
    if k = "" then .error "OpenAI API key not found in environment variables"
    else .ok k

/-- A request is served only by a process that started successfully: when the
module-load credential check fails there is no handler, hence no response. -/
def serveRequest (env : Option String) (cap : Capabilities)
    (files : List UploadedFile) : Option RequestRun :=
  match startServer env with
  | .error _ => none
  | .ok _ => some (POST cap files)

/-- Returns `true` when every step of processing `f` succeeds: the staging write, the
load-and-split, and the summarization of each of the first at-most-five
chunks. -/
def fileOkB (cap : Capabilities) (f : UploadedFile) : Bool :=
  match cap.stageWrite f with
  | .error _ => false
  | .ok _ =>
    match cap.loadChunks f with
    | .error _ => false
    | .ok chunks =>
      (chunks.take 5).all fun c =>
        match cap.summarize c with
        | .ok _ => true
        | .error _ => false

/-- The full summary computed for `f` (meaningful on the success path). -/
def fileSummary (cap : Capabilities) (f : UploadedFile) : String :=
  match (processFile cap f).result with
  | .ok s => s
  | .error _ => ""

/-- The value of a successful capability call (meaningful on the success path). -/
def okValue : Except String String → String
  | .ok t => t
  | .error _ => ""

/-- The synthesis text produced for a request (meaningful on the success path). -/
def synthText (cap : Capabilities) (files : List UploadedFile) : String :=
  okValue (cap.synthesize (String.intercalate "\n" (runFiles cap files).pushed))

/-- The message of the fault that aborts the streaming worker, if any: either
the first per-file failure or a failure of the synthesis call. -/
def requestFault (cap : Capabilities) (files : List UploadedFile) : Option String :=
  match (runFiles cap files).fault with
  | some e => some e
  | none =>
    match cap.synthesize (String.intercalate "\n" (runFiles cap files).pushed) with
    | .error e => some e
    | .ok _ => none

/-! ## Client model (`app/page.tsx`) -/

/-- The structured result published by the client (page lines 11-14, 92). -/
structure AnalysisResult where
  summaries : List String
  unifiedAnalysis : String
deriving DecidableEq

/-- The client-side state mutated by `generateAnalysis`'s read loop
(page lines 63-107): the accumulator of all text seen, the summary currently
being accumulated, the finalized summaries, the published result object (the
`results` React state), the progress log (`scientificProcess`) and the alert
message (the `error` React state). -/
structure ClientState where
  accumulated : String
  currentSummary : String
  summaries : List String
  results : Option AnalysisResult
  log : String
  errorMsg : Option String
deriving DecidableEq

/-- The initial client state at the top of `generateAnalysis`
(page lines 42-45, 65-67). -/
def initialClientState : ClientState := ⟨"", "", [], none, "", none⟩

/-- One iteration of the client's read loop on a newly decoded fragment
(page lines 73-93): the fragment is appended to the accumulator and to the
progress log; if it contains `Summary for`, any summary being accumulated is
finalized (trimmed) and a new accumulation starts from `chunk.split('Summary
for')[1]`; otherwise, if a summary is being accumulated, the whole fragment is
appended to it; then, if the fragment contains `Unified Analysis:`, any
in-progress summary is finalized and the result object is published with
`accumulatedText.split('Unified Analysis:')[1].trim()` as the unified
analysis. -/
def processChunk (st : ClientState) (chunk : String) : ClientState :=
  let acc := st.accumulated ++ chunk
  let log := st.log ++ chunk
  let p :=
    if containsB chunk "Summary for" then
      let sums :=
        if st.currentSummary ≠ "" then st.summaries ++ [strTrim st.currentSummary]
        else st.summaries
      (sums, jsSplitIdx1 chunk "Summary for")
    else if st.currentSummary ≠ "" then (st.summaries, st.currentSummary ++ chunk)
    else (st.summaries, st.currentSummary)
  if containsB chunk "Unified Analysis:" then
    let sums2 := if p.2 ≠ "" then p.1 ++ [strTrim p.2] else p.1
    let ua := strTrim (jsSplitIdx1 acc "Unified Analysis:")
    ⟨acc, p.2, sums2, some ⟨sums2, ua⟩, log, st.errorMsg⟩
  else ⟨acc, p.2, p.1, st.results, log, st.errorMsg⟩

/-- The client's whole read loop over the fragments delivered by the stream,
in arrival order, until the reader reports `done`. -/
def runClient (chunks : List String) : ClientState :=
  chunks.foldl processChunk initialClientState

/-- Model of `generateAnalysis` (page lines 41-108) for a request whose fetch
completed with the given status: the progress log is reset and then seeded
with the `Initiating analysis of <n> files...` line (page lines 44, 51); when
the response is not OK (status outside 200-299) the client throws, and the
catch block records the alert message and appends an error line to the
progress log; otherwise the read loop consumes the delivered fragments and the
success epilogue is appended to the log.  No server-sent fragment ever reaches
the catch block. -/
def generateAnalysis (filesCount : Nat) (status : Nat) (statusText : String)
    (chunks : List String) : ClientState :=
  if 200 ≤ status ∧ status < 300 then
    let st := chunks.foldl processChunk
      { initialClientState with
          log := "Initiating analysis of " ++ toString filesCount ++ " files..." }
    { st with log := st.log ++ "\nAnalysis completed successfully." }
  else
    let msg := "Server responded with " ++ toString status ++ ": " ++ statusText
    { initialClientState with
        errorMsg := some ("An error occurred: " ++ msg),
        log := "Initiating analysis of " ++ toString filesCount ++ " files..." ++
          "\nError occurred: " ++ msg }

/-- The per-file summaries actually displayed in the results view (page lines
168-185): the view renders only when a result object has been published. -/
def displayedSummaries (st : ClientState) : List String :=
  match st.results with
  | none => []
  | some r => r.summaries

/-- Whether the distinct alert element is rendered (page lines 148-154). -/
def alertShown (st : ClientState) : Bool := st.errorMsg.isSome

/-- Modelled from the spec: the client parsing step as §4.5 describes it.  "On
encountering the substring 'Summary for' in a newly arrived fragment: if a
summary was already being accumulated, finalize it into the ordered summaries
list (trimmed); start a new accumulation from the text following the marker in
the same fragment.  Otherwise, if a summary is currently being accumulated,
append the whole fragment to it.  On encountering 'Unified Analysis:':
finalize any in-progress summary, then split the entire accumulated text so
far on that marker and take everything after it (trimmed) as the unified
analysis; construct and publish the final result object."  The accumulator and
progress log grow by the fragment as §4.5 and §7 state. -/
def specClientStep (st : ClientState) (chunk : String) : ClientState :=
  let acc := st.accumulated ++ chunk
  let log := st.log ++ chunk
  let p :=
    if containsB chunk "Summary for" then
      let sums :=
        if st.currentSummary ≠ "" then st.summaries ++ [strTrim st.currentSummary]
        else st.summaries
      (sums, afterFirstStr chunk "Summary for")
    else if st.currentSummary ≠ "" then (st.summaries, st.currentSummary ++ chunk)
    else (st.summaries, st.currentSummary)
  if containsB chunk "Unified Analysis:" then
    let sums2 := if p.2 ≠ "" then p.1 ++ [strTrim p.2] else p.1
    let ua := strTrim (afterFirstStr acc "Unified Analysis:")
    ⟨acc, p.2, sums2, some ⟨sums2, ua⟩, log, st.errorMsg⟩
  else ⟨acc, p.2, p.1, st.results, log, st.errorMsg⟩

/-- The trimmed summary text produced for the first at-most-five chunks. -/
def capSummaryText (cap : Capabilities) (chunks : List String) : String :=
  strTrim (joinWithSpace ((chunks.take 5).map (fun c => okValue (cap.summarize c))))

/-! ## Witness fixtures: concrete files and capabilities -/

/-- A concrete uploaded file. -/
def wDoc1 : UploadedFile := ⟨"a.pdf", "A"⟩

/-- A second concrete uploaded file. -/
def wDoc2 : UploadedFile := ⟨"b.pdf", "B"⟩

/-- Capabilities where every call succeeds: two chunks for `a.pdf`, one for
any other file; each chunk `c` summarizes to `S` followed by `c`; synthesis
returns `T`. -/
def wCap : Capabilities :=
  ⟨fun _ => .ok (),
   fun f => if f.name = "a.pdf" then .ok ["c1", "c2"] else .ok ["d1"],
   fun c => .ok ("S" ++ c),
   fun _ => .ok "T"⟩

/-- Capabilities whose chunker produces seven chunks for every file. -/
def wCap7 : Capabilities :=
  ⟨fun _ => .ok (),
   fun _ => .ok ["k1", "k2", "k3", "k4", "k5", "k6", "k7"],
   fun c => .ok ("S" ++ c),
   fun _ => .ok "T"⟩

/-- Like `wCap7` but the summarizer faults on the sixth and seventh chunk:
those chunks lie beyond the five-chunk cap, so they are never summarized. -/
def wCap7' : Capabilities :=
  { wCap7 with
      summarize := fun c =>
        if c = "k6" ∨ c = "k7" then .error "beyond the cap" else .ok ("S" ++ c) }

/-- Capabilities whose staging write fails (simulated full disk). -/
def stageFailCap : Capabilities :=
  ⟨fun _ => .error "ENOSPC: no space left on device",
   fun _ => .ok [], fun _ => .ok "", fun _ => .ok ""⟩

/-- Capabilities whose document load (after a successful staging write) fails. -/
def loadFailCap : Capabilities :=
  ⟨fun _ => .ok (), fun _ => .error "Invalid PDF structure",
   fun _ => .ok "", fun _ => .ok ""⟩

/-- Like `wCap` but the synthesis call fails. -/
def wCapSynFail : Capabilities := { wCap with synthesize := fun _ => .error "rate limited" }

/-! ## Helper lemmas: prefixes, heads and trimming -/

lemma pfx_append (p r : List Char) : p.isPrefixOf (p ++ r) = true := by
  induction p with
  | nil => simp [List.isPrefixOf]
  | cons a as ih => simp [List.isPrefixOf, ih]

lemma pfx_head {a b : Char} {p l : List Char}
    (h : (a :: p).isPrefixOf (b :: l) = true) : a = b := by
  simp [List.isPrefixOf] at h
  exact h.1

lemma sw_head {s pat : String} {c : Char} {ps : List Char}
    (hp : pat.data = c :: ps) (h : strStartsWith s pat = true) :
    s.data.head? = some c := by
  unfold strStartsWith at h
  rw [hp] at h
  cases hs : s.data with
  | nil => rw [hs] at h; simp [List.isPrefixOf] at h
  | cons b l =>
    rw [hs] at h
    rw [pfx_head h]
    rfl

lemma sw_false {s pat : String} {c c' : Char}
    (hs : s.data.head? = some c) (hp : pat.data.head? = some c') (hne : c' ≠ c) :
    strStartsWith s pat = false := by
  cases hsw : strStartsWith s pat
  · rfl
  · exfalso
    cases hpd : pat.data with
    | nil => rw [hpd] at hp; exact Option.noConfusion hp
    | cons d l =>
      rw [hpd] at hp
      have hdc : d = c' := Option.some.inj hp
      have hh := sw_head hpd hsw
      rw [hs] at hh
      have hcd : c = d := Option.some.inj hh
      exact hne (hdc ▸ hcd.symm)

lemma containsB_of_sw {s pat : String} {c : Char} {ps : List Char}
    (hp : pat.data = c :: ps) (h : strStartsWith s pat = true) :
    containsB s pat = true := by
  unfold containsB
  unfold strStartsWith at h
  cases hs : s.data with
  | nil => rw [hs, hp] at h; simp [List.isPrefixOf] at h
  | cons b l =>
    rw [hs] at h
    simp [firstSplit, h]

lemma sw_summaryFrag (n s : String) :
    strStartsWith (summaryFrag n s) "Summary for" = true := by
  show ("Summary for".data).isPrefixOf (summaryFrag n s).data = true
  have h1 : ("Summary for " : String).data = "Summary for".data ++ [' '] := rfl
  have h2 : (summaryFrag n s).data
      = "Summary for".data ++ ([' '] ++ (n.data ++ ((":\n" : String).data ++
          (s.data ++ ("\n\n" : String).data)))) := by
    simp [summaryFrag, String.data_append, h1]
  rw [h2]
  exact pfx_append _ _

lemma sw_unifiedFrag (t : String) :
    strStartsWith (unifiedFrag t) "Unified Analysis:" = true := by
  show ("Unified Analysis:".data).isPrefixOf (unifiedFrag t).data = true
  have h1 : ("Unified Analysis:\n" : String).data
      = "Unified Analysis:".data ++ ['\n'] := rfl
  have h2 : (unifiedFrag t).data
      = "Unified Analysis:".data ++ (['\n'] ++ (t.data ++ ("\n" : String).data)) := by
    simp [unifiedFrag, String.data_append, h1]
  rw [h2]
  exact pfx_append _ _

lemma sw_errorFrag (m : String) : strStartsWith (errorFrag m) "Error:" = true := by
  show ("Error:".data).isPrefixOf (errorFrag m).data = true
  have h1 : ("Error: " : String).data = "Error:".data ++ [' '] := rfl
  have h2 : (errorFrag m).data
      = "Error:".data ++ ([' '] ++ (m.data ++ ("\n" : String).data)) := by
    simp [errorFrag, String.data_append, h1]
  rw [h2]
  exact pfx_append _ _

lemma sw_analyzingFrag (i t : Nat) (n : String) :
    strStartsWith (analyzingFrag i t n) "🧠 Analyzing section" = true := by
  show ("🧠 Analyzing section".data).isPrefixOf (analyzingFrag i t n).data = true
  have h1 : ("🧠 Analyzing section " : String).data
      = "🧠 Analyzing section".data ++ [' '] := rfl
  have h2 : (analyzingFrag i t n).data
      = "🧠 Analyzing section".data ++ ([' '] ++ ((toString i).data ++
          ((" of " : String).data ++ ((toString t).data ++
            ((" for " : String).data ++ (n.data ++ ("\n" : String).data)))))) := by
    simp [analyzingFrag, String.data_append, h1]
  rw [h2]
  exact pfx_append _ _

lemma head_procFrag (n : String) : (procFrag n).data.head? = some 'P' := rfl

lemma head_analyzingFrag (i t : Nat) (n : String) :
    (analyzingFrag i t n).data.head? = some '🧠' := rfl

lemma head_summaryFrag (n s : String) : (summaryFrag n s).data.head? = some 'S' := rfl

lemma head_errorFrag (m : String) : (errorFrag m).data.head? = some 'E' := rfl

lemma head_unifiedFrag (t : String) : (unifiedFrag t).data.head? = some 'U' := rfl

lemma head_synthFrag : synthFrag.data.head? = some '🧪' := rfl

lemma dropWhile_app_nil {l : List Char}
    (h : l.dropWhile Char.isWhitespace = []) :
    (l ++ [' ']).dropWhile Char.isWhitespace = [] := by
  induction l with
  | nil => simp [List.dropWhile]
  | cons c rest ih =>
    rw [List.dropWhile_cons] at h
    by_cases hw : Char.isWhitespace c
    · rw [List.cons_append, List.dropWhile_cons, if_pos hw]
      rw [if_pos hw] at h
      exact ih h
    · rw [if_neg hw] at h
      exact absurd h (List.cons_ne_nil _ _)

lemma dropWhile_app {l : List Char}
    (h : l.dropWhile Char.isWhitespace ≠ []) :
    (l ++ [' ']).dropWhile Char.isWhitespace
      = l.dropWhile Char.isWhitespace ++ [' '] := by
  induction l with
  | nil => simp [List.dropWhile] at h
  | cons c rest ih =>
    rw [List.dropWhile_cons] at h ⊢
    by_cases hw : Char.isWhitespace c
    · rw [if_pos hw] at h ⊢
      rw [List.cons_append, List.dropWhile_cons, if_pos hw]
      exact ih h
    · rw [if_neg hw] at h ⊢
      rw [List.cons_append, List.dropWhile_cons, if_neg hw]

lemma trimL_space (l : List Char) : trimL (l ++ [' ']) = trimL l := by
  unfold trimL
  by_cases h : l.dropWhile Char.isWhitespace = []
  · rw [dropWhile_app_nil h, h]
  · rw [dropWhile_app h, List.reverse_append]
    have hsp : Char.isWhitespace ' ' = true := by decide
    simp [List.dropWhile_cons, hsp]

lemma strTrim_space (s : String) : strTrim (s ++ " ") = strTrim s := by
  unfold strTrim
  congr 1
  rw [String.data_append]
  exact trimL_space s.data

lemma accJoin_eq : ∀ {L : List String}, L ≠ [] → accJoin L = joinWithSpace L ++ " "
  | [], h => absurd rfl h
  | [t], _ => by simp [accJoin, joinWithSpace]
  | t :: t2 :: rest, _ => by
    have ih := accJoin_eq (L := t2 :: rest) (List.cons_ne_nil _ _)
    show t ++ " " ++ accJoin (t2 :: rest) = (t ++ " " ++ joinWithSpace (t2 :: rest)) ++ " "
    rw [ih]
    simp [String.append_assoc]

lemma strTrim_accJoin (L : List String) :
    strTrim (accJoin L) = strTrim (joinWithSpace L) := by
  cases L with
  | nil => rfl
  | cons t rest =>
    rw [accJoin_eq (List.cons_ne_nil _ _)]
    exact strTrim_space _

/-! ## Helper lemmas: the summarization loop and `processFile` -/

lemma loop_frag_shape (cap : Capabilities) (n : String) (total : Nat) :
    ∀ (L : List String) (i : Nat) (acc : String),
      ∀ fr ∈ (summarizeChunks cap n total L i acc).1, ∃ j, fr = analyzingFrag j total n := by
  intro L
  induction L with
  | nil => intro i acc fr hfr; simp [summarizeChunks] at hfr
  | cons c rest ih =>
    intro i acc fr hfr
    simp only [summarizeChunks] at hfr
    cases hc : cap.summarize c with
    | error e => rw [hc] at hfr; simp at hfr
    | ok t =>
      rw [hc] at hfr
      simp only [List.mem_cons] at hfr
      rcases hfr with h | h
      · exact ⟨i + 1, h⟩
      · exact ih (i + 1) (acc ++ t ++ " ") fr h

lemma loop_frag_heads (cap : Capabilities) (n : String) (total : Nat) :
    ∀ (L : List String) (i : Nat) (acc : String),
      ∀ fr ∈ (summarizeChunks cap n total L i acc).1, fr.data.head? = some '🧠' := by
  intro L i acc fr hfr
  obtain ⟨j, hj⟩ := loop_frag_shape cap n total L i acc fr hfr
  rw [hj]
  exact head_analyzingFrag _ _ _

lemma loop_ok (cap : Capabilities) (n : String) (total : Nat) :
    ∀ (L : List String) (i : Nat) (acc : String),
      (∀ c ∈ L, exOk (cap.summarize c) = true) →
      (summarizeChunks cap n total L i acc).1.length = L.length ∧
      (summarizeChunks cap n total L i acc).2
        = .ok (acc ++ accJoin (L.map (fun c => okValue (cap.summarize c)))) := by
  intro L
  induction L with
  | nil =>
    intro i acc _
    refine ⟨rfl, ?_⟩
    simp [summarizeChunks, accJoin]
  | cons c rest ih =>
    intro i acc h
    have hc := h c (List.mem_cons_self c rest)
    cases hcc : cap.summarize c with
    | error e => rw [hcc] at hc; simp [exOk] at hc
    | ok t =>
      have ihh := ih (i + 1) (acc ++ t ++ " ")
        (fun c' hc' => h c' (List.mem_cons_of_mem _ hc'))
      constructor
      · simp only [summarizeChunks, hcc, List.length_cons]
        rw [ihh.1]
      · simp only [summarizeChunks, hcc]
        rw [ihh.2, List.map_cons]
        simp [accJoin, okValue, hcc, String.append_assoc]

lemma fileOkB_elim {cap : Capabilities} {f : UploadedFile}
    (h : fileOkB cap f = true) :
    ∃ chunks, cap.stageWrite f = .ok () ∧ cap.loadChunks f = .ok chunks ∧
      ∀ c ∈ chunks.take 5, exOk (cap.summarize c) = true := by
  unfold fileOkB at h
  cases hs : cap.stageWrite f with
  | error e => rw [hs] at h; exact absurd h (by simp)
  | ok u =>
    rw [hs] at h
    cases hl : cap.loadChunks f with
    | error e => rw [hl] at h; exact absurd h (by simp)
    | ok chunks =>
      rw [hl] at h
      refine ⟨chunks, ?_, ?_, ?_⟩
      · cases u; rfl
      · rfl
      · intro c hc
        have := (List.all_eq_true.mp h) c hc
        cases hcc : cap.summarize c with
        | error e => rw [hcc] at this; simp at this
        | ok t => simp [exOk]

lemma processFile_ok {cap : Capabilities} {f : UploadedFile} {chunks : List String}
    (hstage : cap.stageWrite f = .ok ())
    (hload : cap.loadChunks f = .ok chunks)
    (hsum : ∀ c ∈ chunks.take 5, exOk (cap.summarize c) = true) :
    processFile cap f =
      ⟨procFrag f.name ::
        ((summarizeChunks cap f.name (min chunks.length 5) (chunks.take 5) 0 "").1 ++
          [summaryFrag f.name (capSummaryText cap chunks)]),
       .ok (capSummaryText cap chunks), true⟩ := by
  have hl := loop_ok cap f.name (min chunks.length 5) (chunks.take 5) 0 "" hsum
  have hl2 : (summarizeChunks cap f.name (min chunks.length 5) (chunks.take 5) 0 "").2
      = .ok (accJoin ((chunks.take 5).map (fun c => okValue (cap.summarize c)))) := by
    rw [hl.2, String.empty_append]
  have htr : strTrim (accJoin ((chunks.take 5).map (fun c => okValue (cap.summarize c))))
      = capSummaryText cap chunks := strTrim_accJoin _
  unfold processFile
  rw [hstage, hload]
  simp only [hl2, htr]

lemma processFile_of_fileOk {cap : Capabilities} {f : UploadedFile}
    (h : fileOkB cap f = true) :
    (processFile cap f).result = .ok (fileSummary cap f) ∧
    (processFile cap f).dirRemoved = true ∧
    ∃ mid, (processFile cap f).fragments
        = procFrag f.name :: (mid ++ [summaryFrag f.name (fileSummary cap f)]) ∧
      ∀ fr ∈ mid, fr.data.head? = some '🧠' := by
  obtain ⟨chunks, hstage, hload, hsum⟩ := fileOkB_elim h
  have hpf := processFile_ok hstage hload hsum
  have hfs : fileSummary cap f = capSummaryText cap chunks := by
    unfold fileSummary
    rw [hpf]
  refine ⟨?_, ?_, ?_⟩
  · rw [hpf, hfs]
  · rw [hpf]
  · refine ⟨(summarizeChunks cap f.name (min chunks.length 5) (chunks.take 5) 0 "").1,
      ?_, ?_⟩
    · rw [hpf, hfs]
    · exact loop_frag_heads cap f.name (min chunks.length 5) (chunks.take 5) 0 ""

lemma filter_sw_of_fileOk {cap : Capabilities} {f : UploadedFile}
    (h : fileOkB cap f = true) :
    (processFile cap f).fragments.filter (fun c => strStartsWith c "Summary for")
      = [summaryFrag f.name (fileSummary cap f)] := by
  obtain ⟨_, _, mid, hfr, hmid⟩ := processFile_of_fileOk h
  rw [hfr]
  have hP : strStartsWith (procFrag f.name) "Summary for" = false :=
    sw_false (head_procFrag f.name) rfl (by decide)
  have hMid : ∀ fr ∈ mid, strStartsWith fr "Summary for" = false := by
    intro fr hm
    exact sw_false (hmid fr hm) rfl (by decide)
  rw [List.filter_cons, List.filter_append]
  simp only [hP, Bool.false_eq_true, if_false]
  rw [List.filter_eq_nil_iff.mpr (by intro a ha; rw [hMid a ha]; simp)]
  simp [List.filter_cons, sw_summaryFrag]

lemma processFile_heads {cap : Capabilities} {f : UploadedFile} :
    ∀ fr ∈ (processFile cap f).fragments,
      fr.data.head? = some 'P' ∨ fr.data.head? = some '🧠' ∨ fr.data.head? = some 'S' := by
  intro fr hfr
  unfold processFile at hfr
  cases hs : cap.stageWrite f with
  | error e => rw [hs] at hfr; simp at hfr
  | ok u =>
    rw [hs] at hfr
    cases hl : cap.loadChunks f with
    | error e =>
      rw [hl] at hfr
      simp at hfr
      rw [hfr]
      exact Or.inl (head_procFrag _)
    | ok chunks =>
      rw [hl] at hfr
      simp only [] at hfr
      cases hr : (summarizeChunks cap f.name (min chunks.length 5) (chunks.take 5) 0 "").2 with
      | error e =>
        rw [hr] at hfr
        simp only [List.mem_cons] at hfr
        rcases hfr with h | h
        · rw [h]; exact Or.inl (head_procFrag _)
        · exact Or.inr (Or.inl (loop_frag_heads cap f.name _ _ 0 "" fr h))
      | ok acc =>
        rw [hr] at hfr
        simp only [List.mem_cons, List.mem_append, List.mem_singleton,
          List.not_mem_nil, or_false] at hfr
        rcases hfr with h | h | h
        · rw [h]; exact Or.inl (head_procFrag _)
        · exact Or.inr (Or.inl (loop_frag_heads cap f.name _ _ 0 "" fr h))
        · rw [h]; exact Or.inr (Or.inr (head_summaryFrag _ _))

lemma runFiles_ok {cap : Capabilities} :
    ∀ {files : List UploadedFile}, (∀ f ∈ files, fileOkB cap f = true) →
      (runFiles cap files).fault = none ∧
      (runFiles cap files).fragments
        = flat (files.map (fun f => (processFile cap f).fragments)) ∧
      (runFiles cap files).pushed
        = files.map (fun f => summaryFrag f.name (fileSummary cap f)) ∧
      (runFiles cap files).leaked = [] := by
  intro files
  induction files with
  | nil => intro _; exact ⟨rfl, rfl, rfl, rfl⟩
  | cons f rest ih =>
    intro h
    have hf := h f (List.mem_cons_self f rest)
    obtain ⟨hres, hdir, _⟩ := processFile_of_fileOk hf
    have hfil := filter_sw_of_fileOk hf
    have ihh := ih (fun g hg => h g (List.mem_cons_of_mem _ hg))
    simp only [runFiles]
    rw [hres]
    simp only []
    rw [hdir]
    refine ⟨ihh.1, ?_, ?_, ?_⟩
    · rw [ihh.2.1]; simp [flat]
    · rw [ihh.2.2.1, hfil]; simp
    · rw [ihh.2.2.2]; simp

lemma runFiles_heads {cap : Capabilities} :
    ∀ {files : List UploadedFile}, ∀ fr ∈ (runFiles cap files).fragments,
      fr.data.head? = some 'P' ∨ fr.data.head? = some '🧠' ∨ fr.data.head? = some 'S' := by
  intro files
  induction files with
  | nil => intro fr hfr; simp [runFiles] at hfr
  | cons f rest ih =>
    intro fr hfr
    simp only [runFiles] at hfr
    cases hres : (processFile cap f).result with
    | error e =>
      rw [hres] at hfr
      simp only [] at hfr
      exact processFile_heads fr hfr
    | ok s =>
      rw [hres] at hfr
      simp only [List.mem_append] at hfr
      rcases hfr with h | h
      · exact processFile_heads fr h
      · exact ih fr h

/-! ## Helper lemmas: the `POST` handler -/

lemma flat_map_singleton {α β : Type} (g : α → β) (L : List α) :
    flat (L.map (fun x => [g x])) = L.map g := by
  induction L with
  | nil => rfl
  | cons a rest ih => simp [flat, ih]

lemma filter_flat {α : Type} (p : α → Bool) (Ls : List (List α)) :
    (flat Ls).filter p = flat (Ls.map (fun l => l.filter p)) := by
  induction Ls with
  | nil => rfl
  | cons l rest ih => simp [flat, List.filter_append, ih]

lemma POST_ok {cap : Capabilities} {files : List UploadedFile} {t : String}
    (hne : files ≠ [])
    (hok : ∀ f ∈ files, fileOkB cap f = true)
    (hsyn : cap.synthesize (String.intercalate "\n"
      (files.map (fun f => summaryFrag f.name (fileSummary cap f)))) = .ok t) :
    POST cap files =
      ⟨200, none, true,
        flat (files.map (fun f => (processFile cap f).fragments)) ++
          [synthFrag, unifiedFrag t],
        1, []⟩ := by
  obtain ⟨hfault, hfrags, hpushed, hleak⟩ := runFiles_ok hok
  unfold POST
  rw [if_neg (by simpa using List.length_eq_zero.not.mpr hne)]
  simp only [hfault]
  rw [hpushed, hsyn]
  simp only [hfrags, hleak]

lemma POST_fault {cap : Capabilities} {files : List UploadedFile} {msg : String}
    (hne : files ≠ [])
    (hfault : requestFault cap files = some msg) :
    ∃ pre, (POST cap files).fragments = pre ++ [errorFrag msg] ∧
      (∀ fr ∈ pre, fr.data.head? = some 'P' ∨ fr.data.head? = some '🧠' ∨
        fr.data.head? = some 'S' ∨ fr.data.head? = some '🧪') ∧
      (POST cap files).closes = 1 := by
  unfold requestFault at hfault
  unfold POST
  rw [if_neg (by simpa using List.length_eq_zero.not.mpr hne)]
  cases hF : (runFiles cap files).fault with
  | some e =>
    rw [hF] at hfault
    simp only [] at hfault
    have he : e = msg := Option.some.inj hfault
    refine ⟨(runFiles cap files).fragments, ?_, ?_, rfl⟩
    · simp [he]
    · intro fr hfr
      rcases runFiles_heads fr hfr with h | h | h
      · exact Or.inl h
      · exact Or.inr (Or.inl h)
      · exact Or.inr (Or.inr (Or.inl h))
  | none =>
    rw [hF] at hfault
    simp only [] at hfault
    cases hS : cap.synthesize (String.intercalate "\n" (runFiles cap files).pushed) with
    | ok t => rw [hS] at hfault; simp at hfault
    | error e =>
      rw [hS] at hfault
      have he : e = msg := Option.some.inj hfault
      refine ⟨(runFiles cap files).fragments ++ [synthFrag], ?_, ?_, rfl⟩
      · simp [he]
      · intro fr hfr
        rcases List.mem_append.mp hfr with h | h
        · rcases runFiles_heads fr h with h1 | h1 | h1
          · exact Or.inl h1
          · exact Or.inr (Or.inl h1)
          · exact Or.inr (Or.inr (Or.inl h1))
        · rw [List.mem_singleton.mp h]
          exact Or.inr (Or.inr (Or.inr head_synthFrag))

/-! ## Helper lemmas: the client -/

lemma processChunk_log (st : ClientState) (c : String) :
    (processChunk st c).log = st.log ++ c := by
  simp only [processChunk, apply_ite ClientState.log]
  simp

lemma processChunk_errorMsg (st : ClientState) (c : String) :
    (processChunk st c).errorMsg = st.errorMsg := by
  simp only [processChunk, apply_ite ClientState.errorMsg]
  simp

lemma processChunk_results_of_noUA {st : ClientState} {c : String}
    (h : containsB c "Unified Analysis:" = false) :
    (processChunk st c).results = st.results := by
  unfold processChunk
  rw [h]
  simp

lemma foldl_results_none :
    ∀ (chunks : List String) (st : ClientState),
      (∀ c ∈ chunks, containsB c "Unified Analysis:" = false) →
      st.results = none → (chunks.foldl processChunk st).results = none := by
  intro chunks
  induction chunks with
  | nil => intro st _ h0; exact h0
  | cons c rest ih =>
    intro st h h0
    rw [List.foldl_cons]
    refine ih (processChunk st c) (fun d hd => h d (List.mem_cons_of_mem _ hd)) ?_
    rw [processChunk_results_of_noUA (h c (List.mem_cons_self c rest))]
    exact h0

lemma foldl_log :
    ∀ (chunks : List String) (st : ClientState),
      (chunks.foldl processChunk st).log = st.log ++ strConcat chunks := by
  intro chunks
  induction chunks with
  | nil => intro st; simp [strConcat, String.append_empty]
  | cons c rest ih =>
    intro st
    rw [List.foldl_cons, ih, processChunk_log]
    simp [strConcat, String.append_assoc]

lemma foldl_errorMsg :
    ∀ (chunks : List String) (st : ClientState),
      (chunks.foldl processChunk st).errorMsg = st.errorMsg := by
  intro chunks
  induction chunks with
  | nil => intro st; rfl
  | cons c rest ih =>
    intro st
    rw [List.foldl_cons, ih, processChunk_errorMsg]

lemma jsSplit_eq_after {s pat : String} (h : atMostOnceB s pat = true) :
    jsSplitIdx1 s pat = afterFirstStr s pat := by
  unfold atMostOnceB at h
  unfold jsSplitIdx1 afterFirstStr
  cases hf : firstSplit pat.data s.data with
  | none => rfl
  | some r =>
    rw [hf] at h
    have h2 : firstSplit pat.data r.2 = none := by simpa using h
    simp only [h2]

lemma flat_map_nil {α β : Type} (L : List α) :
    flat (L.map (fun _ => ([] : List β))) = [] := by
  induction L with
  | nil => rfl
  | cons a rest ih => simpa [flat] using ih

lemma mem_flat {α : Type} {x : α} :
    ∀ {Ls : List (List α)}, x ∈ flat Ls → ∃ l ∈ Ls, x ∈ l := by
  intro Ls
  induction Ls with
  | nil => intro h; simp [flat] at h
  | cons l rest ih =>
    intro h
    rcases List.mem_append.mp h with h1 | h1
    · exact ⟨l, List.mem_cons_self l rest, h1⟩
    · obtain ⟨l', hl', hx⟩ := ih h1
      exact ⟨l', List.mem_cons_of_mem _ hl', hx⟩

lemma loop_congr {cap cap' : Capabilities} {n : String} {total : Nat} :
    ∀ (L : List String) (i : Nat) (acc : String),
      (∀ c ∈ L, cap'.summarize c = cap.summarize c) →
      summarizeChunks cap' n total L i acc = summarizeChunks cap n total L i acc := by
  intro L
  induction L with
  | nil => intro i acc _; rfl
  | cons c rest ih =>
    intro i acc h
    have hc := h c (List.mem_cons_self c rest)
    cases hcc : cap.summarize c with
    | error e => simp only [summarizeChunks, hc, hcc]
    | ok t =>
      simp only [summarizeChunks, hc, hcc]
      rw [ih (i + 1) _ (fun d hd => h d (List.mem_cons_of_mem _ hd))]

/-! ## The claims -/

/-- Claim C5: for every POST request whose multipart form data contains zero
entries in the `files` field, the server responds with HTTP status 400 and
body `No files uploaded`, and no streaming response body is opened. -/
theorem post_rejects_empty_upload (cap : Capabilities) :
    (POST cap []).status = 400 ∧
    (POST cap []).body = some "No files uploaded" ∧
    (POST cap []).streamOpened = false ∧
    (POST cap []).fragments = [] := ⟨rfl, rfl, rfl, rfl⟩

/-- Claim C9: the LLM API credential is checked once at process start (module
load): when it is absent (or empty, which JavaScript treats as falsy) the
module throws the startup error, the process never becomes servable and no
request is ever answered — so the absence is never reported as a per-request
error. -/
theorem credential_checked_at_startup (cap : Capabilities) (files : List UploadedFile) :
    startServer none = .error "OpenAI API key not found in environment variables" ∧
    startServer (some "") = .error "OpenAI API key not found in environment variables" ∧
    serveRequest none cap files = none ∧
    serveRequest (some "") cap files = none := ⟨rfl, rfl, rfl, rfl⟩

/-- Claim C3 (refuted, code bug): the route writes the staged file before
entering the `try`/`finally` that removes the staging directory, so a failure
of the staging write leaves the freshly created directory on disk: the request
streams the error fragment and closes, but the staging area survives.  Faults
that occur after staging (for example a document-parse failure) do remove the
directory, which shows the cleanup intent of the `finally`. -/
theorem staging_failure_leaks_temp_dir :
    (POST stageFailCap [wDoc1]).leaked = ["a.pdf"] ∧
    (POST stageFailCap [wDoc1]).fragments
      = [errorFrag "ENOSPC: no space left on device"] ∧
    (POST stageFailCap [wDoc1]).closes = 1 ∧
    (POST loadFailCap [wDoc1]).leaked = [] ∧
    (POST loadFailCap [wDoc1]).fragments
      = [procFrag "a.pdf", errorFrag "Invalid PDF structure"] :=
  ⟨rfl, rfl, rfl, rfl, rfl⟩

/-- Claim C2: for a file whose chunker produces `totalChunks` chunks (and
whose staging and capped summarization succeed), the server emits exactly
`min(totalChunks, 5)` `Analyzing section` progress fragments, and the outcome
of processing the file is unchanged by any modification of the summarization
capability outside the first five chunks — chunks with index five or more are
never summarized (truncation, not an error). -/
theorem analyzing_count_and_chunk_cap (cap cap' : Capabilities) (f : UploadedFile)
    (chunks : List String)
    (hstage : cap.stageWrite f = .ok ())
    (hload : cap.loadChunks f = .ok chunks)
    (hsum : ∀ c ∈ chunks.take 5, exOk (cap.summarize c) = true)
    (hsw : cap'.stageWrite f = cap.stageWrite f)
    (hlc : cap'.loadChunks f = cap.loadChunks f)
    (hagree : ∀ c ∈ chunks.take 5, cap'.summarize c = cap.summarize c) :
    (processFile cap f).fragments.countP
        (fun fr => strStartsWith fr "🧠 Analyzing section") = min chunks.length 5 ∧
    processFile cap' f = processFile cap f := by
  constructor
  · rw [processFile_ok hstage hload hsum]
    simp only [List.countP_cons, List.countP_append]
    have hP : strStartsWith (procFrag f.name) "🧠 Analyzing section" = false :=
      sw_false (head_procFrag f.name) rfl (by decide)
    have hS : strStartsWith (summaryFrag f.name (capSummaryText cap chunks))
        "🧠 Analyzing section" = false :=
      sw_false (head_summaryFrag _ _) rfl (by decide)
    have hloopAll : (summarizeChunks cap f.name (min chunks.length 5)
          (chunks.take 5) 0 "").1.countP
        (fun fr => strStartsWith fr "🧠 Analyzing section")
        = (summarizeChunks cap f.name (min chunks.length 5) (chunks.take 5) 0 "").1.length := by
      rw [List.countP_eq_length]
      intro fr hfr
      obtain ⟨j, hj⟩ := loop_frag_shape cap f.name _ _ 0 "" fr hfr
      rw [hj]
      exact sw_analyzingFrag _ _ _
    rw [hloopAll, (loop_ok cap f.name (min chunks.length 5) (chunks.take 5) 0 "" hsum).1]
    simp [hP, hS, List.length_take, Nat.min_comm]
  · have hloop := @loop_congr cap cap' f.name (min chunks.length 5)
      (chunks.take 5) 0 "" hagree
    simp only [processFile, hsw, hstage, hlc, hload, hloop]

/-- Claim C2 witness: with a chunker producing seven chunks, five analyzing
fragments are emitted, and a summarizer that faults on the sixth and seventh
chunk changes nothing — those chunks are never summarized. -/
theorem analyzing_count_and_chunk_cap_witness :
    (processFile wCap7 wDoc1).fragments.countP
        (fun fr => strStartsWith fr "🧠 Analyzing section")
      = min (["k1", "k2", "k3", "k4", "k5", "k6", "k7"] : List String).length 5 ∧
    processFile wCap7' wDoc1 = processFile wCap7 wDoc1 :=
  analyzing_count_and_chunk_cap wCap7 wCap7' wDoc1
    ["k1", "k2", "k3", "k4", "k5", "k6", "k7"]
    rfl rfl (by decide) rfl rfl (by decide)

/-- Claim C7: for every uploaded file (whose processing succeeds), the
per-file summary equals the chunk summaries returned by the summarization
capability, concatenated in chunk order separated by a single space and
trimmed of surrounding whitespace, and the terminal fragment emitted for that
file has exactly the shape `Summary for <fileName>:\n<summary>\n\n`. -/
theorem per_file_summary_shape (cap : Capabilities) (f : UploadedFile)
    (chunks : List String)
    (hstage : cap.stageWrite f = .ok ())
    (hload : cap.loadChunks f = .ok chunks)
    (hsum : ∀ c ∈ chunks.take 5, exOk (cap.summarize c) = true) :
    (processFile cap f).result
      = .ok (strTrim (joinWithSpace
          ((chunks.take 5).map (fun c => okValue (cap.summarize c))))) ∧
    (processFile cap f).fragments.getLast?
      = some ("Summary for " ++ f.name ++ ":\n"
          ++ strTrim (joinWithSpace ((chunks.take 5).map (fun c => okValue (cap.summarize c))))
          ++ "\n\n") := by
  have hpf := processFile_ok hstage hload hsum
  constructor
  · rw [hpf]
    rfl
  · rw [hpf]
    show (procFrag f.name :: ((summarizeChunks cap f.name (min chunks.length 5)
        (chunks.take 5) 0 "").1 ++ [summaryFrag f.name (capSummaryText cap chunks)])).getLast?
      = some (summaryFrag f.name (capSummaryText cap chunks))
    rw [show procFrag f.name :: ((summarizeChunks cap f.name (min chunks.length 5)
        (chunks.take 5) 0 "").1 ++ [summaryFrag f.name (capSummaryText cap chunks)])
      = (procFrag f.name :: (summarizeChunks cap f.name (min chunks.length 5)
          (chunks.take 5) 0 "").1) ++ [summaryFrag f.name (capSummaryText cap chunks)]
      from by simp]
    exact List.getLast?_concat _

/-- Claim C7 witness: for `a.pdf` with chunks `c1`, `c2`, the summary is the
space-joined trimmed chunk summaries and the terminal fragment has the
required shape. -/
theorem per_file_summary_shape_witness :
    (processFile wCap wDoc1).result
      = .ok (strTrim (joinWithSpace
          (((["c1", "c2"] : List String).take 5).map (fun c => okValue (wCap.summarize c))))) ∧
    (processFile wCap wDoc1).fragments.getLast?
      = some ("Summary for " ++ wDoc1.name ++ ":\n"
          ++ strTrim (joinWithSpace
              (((["c1", "c2"] : List String).take 5).map (fun c => okValue (wCap.summarize c))))
          ++ "\n\n") :=
  per_file_summary_shape wCap wDoc1 ["c1", "c2"] rfl rfl (by decide)

/-- Claim C1: for every successful request with `N` files — all capability
calls succeed, and the markers occur only in the fragments of their own kind
(the documented marker-collision fragility is excluded by hypothesis) — the
server writes exactly `N` fragments containing `Summary for`, one per file and
in submission order, then exactly one fragment containing `Unified Analysis:`,
which is the last fragment written, and then closes the stream. -/
theorem stream_shape_success (cap : Capabilities) (files : List UploadedFile) (t : String)
    (hne : files ≠ [])
    (hok : ∀ f ∈ files, fileOkB cap f = true)
    (hsyn : cap.synthesize (String.intercalate "\n"
      (files.map (fun f => summaryFrag f.name (fileSummary cap f)))) = .ok t)
    (honlySF : ∀ f ∈ files, ∀ fr ∈ (processFile cap f).fragments,
      containsB fr "Summary for" = strStartsWith fr "Summary for")
    (hnoUA : ∀ f ∈ files, ∀ fr ∈ (processFile cap f).fragments,
      containsB fr "Unified Analysis:" = false)
    (huniSF : containsB (unifiedFrag t) "Summary for" = false) :
    (POST cap files).fragments.filter (fun fr => containsB fr "Summary for")
      = files.map (fun f => summaryFrag f.name (fileSummary cap f)) ∧
    (POST cap files).fragments.filter (fun fr => containsB fr "Unified Analysis:")
      = [unifiedFrag t] ∧
    (POST cap files).fragments.getLast? = some (unifiedFrag t) ∧
    (POST cap files).closes = 1 := by
  have hpost := POST_ok hne hok hsyn
  have hfrag : (POST cap files).fragments
      = flat (files.map (fun f => (processFile cap f).fragments)) ++
          [synthFrag, unifiedFrag t] := by rw [hpost]
  have hsynthSF : containsB synthFrag "Summary for" = false := by decide
  have hsynthUA : containsB synthFrag "Unified Analysis:" = false := by decide
  refine ⟨?_, ?_, ?_, ?_⟩
  · rw [hfrag, List.filter_append, filter_flat, List.map_map]
    have hper : files.map ((fun l => l.filter (fun fr => containsB fr "Summary for")) ∘
          (fun f => (processFile cap f).fragments))
        = files.map (fun f => [summaryFrag f.name (fileSummary cap f)]) := by
      apply List.map_congr_left
      intro f hf
      show (processFile cap f).fragments.filter (fun fr => containsB fr "Summary for")
        = [summaryFrag f.name (fileSummary cap f)]
      rw [List.filter_congr (fun fr hfr => honlySF f hf fr hfr)]
      exact filter_sw_of_fileOk (hok f hf)
    rw [hper, flat_map_singleton]
    simp [List.filter, hsynthSF, huniSF]
  · rw [hfrag, List.filter_append, filter_flat, List.map_map]
    have hper : files.map ((fun l => l.filter (fun fr => containsB fr "Unified Analysis:")) ∘
          (fun f => (processFile cap f).fragments))
        = files.map (fun _ => []) := by
      apply List.map_congr_left
      intro f hf
      show (processFile cap f).fragments.filter (fun fr => containsB fr "Unified Analysis:") = []
      rw [List.filter_eq_nil_iff]
      intro fr hfr
      rw [hnoUA f hf fr hfr]
      simp
    rw [hper, flat_map_nil]
    have hu : containsB (unifiedFrag t) "Unified Analysis:" = true :=
      containsB_of_sw rfl (sw_unifiedFrag t)
    simp [List.filter, hsynthUA, hu]
  · rw [hfrag]
    rw [show flat (files.map (fun f => (processFile cap f).fragments)) ++
          [synthFrag, unifiedFrag t]
        = (flat (files.map (fun f => (processFile cap f).fragments)) ++ [synthFrag]) ++
            [unifiedFrag t] from by simp]
    exact List.getLast?_concat _
  · rw [hpost]

/-- Claim C1 witness: two files, all calls succeeding, synthesis text `T`. -/
theorem stream_shape_success_witness :
    (POST wCap [wDoc1, wDoc2]).fragments.filter (fun fr => containsB fr "Summary for")
      = [wDoc1, wDoc2].map (fun f => summaryFrag f.name (fileSummary wCap f)) ∧
    (POST wCap [wDoc1, wDoc2]).fragments.filter (fun fr => containsB fr "Unified Analysis:")
      = [unifiedFrag "T"] ∧
    (POST wCap [wDoc1, wDoc2]).fragments.getLast? = some (unifiedFrag "T") ∧
    (POST wCap [wDoc1, wDoc2]).closes = 1 :=
  stream_shape_success wCap [wDoc1, wDoc2] "T"
    (by decide) (by decide) rfl (by decide) (by decide) (by decide)

/-- Claim C4: for every request in which an in-flight processing step faults
(staging write, document load, any summarization call, or the synthesis call),
the streaming worker emits exactly one `Error: <message>` fragment, as the
last fragment after whatever partial output was already streamed, emits no
`Unified Analysis:` fragment, and closes the stream exactly once. -/
theorem fault_stream_shape (cap : Capabilities) (files : List UploadedFile) (msg : String)
    (hne : files ≠ [])
    (hfault : requestFault cap files = some msg) :
    (POST cap files).fragments.getLast? = some (errorFrag msg) ∧
    (POST cap files).fragments.filter (fun fr => strStartsWith fr "Error:")
      = [errorFrag msg] ∧
    (POST cap files).fragments.filter (fun fr => strStartsWith fr "Unified Analysis:")
      = [] ∧
    (POST cap files).closes = 1 := by
  obtain ⟨pre, hfr, hheads, hcl⟩ := POST_fault hne hfault
  have hpatE : ("Error:" : String).data.head? = some 'E' := rfl
  have hpatU : ("Unified Analysis:" : String).data.head? = some 'U' := rfl
  have hpreE : pre.filter (fun fr => strStartsWith fr "Error:") = [] := by
    rw [List.filter_eq_nil_iff]
    intro fr hm
    rcases hheads fr hm with h | h | h | h <;>
      simp [sw_false h hpatE (by decide)]
  have hpreU : pre.filter (fun fr => strStartsWith fr "Unified Analysis:") = [] := by
    rw [List.filter_eq_nil_iff]
    intro fr hm
    rcases hheads fr hm with h | h | h | h <;>
      simp [sw_false h hpatU (by decide)]
  have herrU : strStartsWith (errorFrag msg) "Unified Analysis:" = false :=
    sw_false (head_errorFrag msg) hpatU (by decide)
  refine ⟨?_, ?_, ?_, hcl⟩
  · rw [hfr]
    exact List.getLast?_concat _
  · rw [hfr, List.filter_append, hpreE]
    simp [List.filter, sw_errorFrag]
  · rw [hfr, List.filter_append, hpreU]
    simp [List.filter, herrU]

/-- Claim C4 witness: both files succeed but the synthesis call fails, so the
stream is all the per-file output, the synthesizing notice, then one error
fragment, and the stream closes once. -/
theorem fault_stream_shape_witness :
    (POST wCapSynFail [wDoc1, wDoc2]).fragments.getLast?
      = some (errorFrag "rate limited") ∧
    (POST wCapSynFail [wDoc1, wDoc2]).fragments.filter
        (fun fr => strStartsWith fr "Error:") = [errorFrag "rate limited"] ∧
    (POST wCapSynFail [wDoc1, wDoc2]).fragments.filter
        (fun fr => strStartsWith fr "Unified Analysis:") = [] ∧
    (POST wCapSynFail [wDoc1, wDoc2]).closes = 1 :=
  fault_stream_shape wCapSynFail [wDoc1, wDoc2] "rate limited" (by decide) rfl

/-- Claim C6: the client's per-fragment parsing step behaves exactly as the
spec describes it — finalize any in-progress summary on a `Summary for`
fragment and restart accumulation from the text after the marker, and on a
`Unified Analysis:` fragment finalize and publish the result with everything
after the marker in the whole accumulated text, trimmed — provided each marker
occurs at most once (in the fragment, respectively in the accumulated text),
which is the regime the server's one-marker-per-fragment grammar produces. -/
theorem client_parser_step (st : ClientState) (chunk : String)
    (hSF : atMostOnceB chunk "Summary for" = true)
    (hUA : atMostOnceB (st.accumulated ++ chunk) "Unified Analysis:" = true) :
    processChunk st chunk = specClientStep st chunk := by
  simp only [processChunk, specClientStep,
    jsSplit_eq_after hSF, jsSplit_eq_after hUA]

/-- Claim C6 witness: a state with a summary in progress receiving a fragment
that contains `Summary for` once. -/
theorem client_parser_step_witness :
    processChunk ⟨"prior ", "cur text", ["old"], none, "log", none⟩
        "Summary for b.pdf:\nXY"
      = specClientStep ⟨"prior ", "cur text", ["old"], none, "log", none⟩
        "Summary for b.pdf:\nXY" :=
  client_parser_step ⟨"prior ", "cur text", ["old"], none, "log", none⟩
    "Summary for b.pdf:\nXY" (by decide) (by decide)

/-- Claim C10: for every stream that ends without any fragment containing
`Unified Analysis:` — in particular one terminated by an `Error:` fragment —
the client never publishes a result object: `results` stays `null` and any
summary text already accumulated is discarded, so the results view displays
nothing. -/
theorem no_unified_marker_no_results (chunks : List String)
    (h : ∀ c ∈ chunks, containsB c "Unified Analysis:" = false) :
    (runClient chunks).results = none ∧
    displayedSummaries (runClient chunks) = [] := by
  have hr : (runClient chunks).results = none :=
    foldl_results_none chunks initialClientState h rfl
  refine ⟨hr, ?_⟩
  unfold displayedSummaries
  rw [hr]

/-- Claim C10 witness: a stream with one summary fragment then an error
fragment publishes nothing. -/
theorem no_unified_marker_no_results_witness :
    (runClient ["Processing a.pdf...\n", "Summary for a.pdf:\nX\n\n",
        "Error: boom\n"]).results = none ∧
    displayedSummaries (runClient ["Processing a.pdf...\n",
        "Summary for a.pdf:\nX\n\n", "Error: boom\n"]) = [] :=
  no_unified_marker_no_results
    ["Processing a.pdf...\n", "Summary for a.pdf:\nX\n\n", "Error: boom\n"]
    (by decide)

/-- Claim C8 counterexample: a pipeline fault whose `Error: boom` fragment
reaches the client over a 200-OK stream is appended to the progress log, but
the `error` state stays `null`, so the distinct alert element is not rendered
— contradicting the claim that the error text is surfaced in both places. -/
theorem error_fragment_no_alert_cex :
    alertShown (generateAnalysis 1 200 "OK" ["Error: boom\n"]) = false ∧
    containsB (generateAnalysis 1 200 "OK" ["Error: boom\n"]).log "Error: boom" = true := by
  decide

/-- Claim C8 amended: when a pipeline fault's `Error:` fragment reaches the
client over a 200-OK stream, the client surfaces the error text inline in the
progress log only (the log is the concatenation of all fragments, plus the
success epilogue); the distinct alert element stays hidden, and it is shown
only when the request itself fails, such as a non-OK HTTP status. -/
theorem error_fragment_inline_only (n : Nat) (statusText : String) (chunks : List String) :
    (generateAnalysis n 200 statusText chunks).errorMsg = none ∧
    (generateAnalysis n 200 statusText chunks).log
      = "Initiating analysis of " ++ toString n ++ " files..." ++ strConcat chunks ++
          "\nAnalysis completed successfully." ∧
    alertShown (generateAnalysis n 500 statusText chunks) = true ∧
    (generateAnalysis n 500 statusText chunks).errorMsg
      = some ("An error occurred: Server responded with 500: " ++ statusText) := by
  have hinit : ({ initialClientState with
      log := "Initiating analysis of " ++ toString n ++ " files..." } : ClientState).errorMsg
      = none := rfl
  refine ⟨?_, ?_, ?_, ?_⟩
  · show (chunks.foldl processChunk { initialClientState with
        log := "Initiating analysis of " ++ toString n ++ " files..." }).errorMsg = none
    rw [foldl_errorMsg chunks _]
    exact hinit
  · show (chunks.foldl processChunk { initialClientState with
        log := "Initiating analysis of " ++ toString n ++ " files..." }).log ++
          "\nAnalysis completed successfully."
      = "Initiating analysis of " ++ toString n ++ " files..." ++ strConcat chunks ++
          "\nAnalysis completed successfully."
    rw [foldl_log chunks _]
  · rfl
  · rfl

end STM
